import Mathlib

/-!
Shallow embedding of `mongodbstore.go` (package `mongodbstore`,
github.com/ashulepov/mongodbstore), a MongoDB-backed session store for
Gorilla sessions.

Modelling choices:
* `time.Time` is modelled as `Int` (an abstract timestamp).
* A MongoDB `primitive.ObjectID` is a 12-byte value, modelled as
  `List Nat` whose entries are bytes; `primitive.ObjectIDFromHex` and
  `ObjectID.Hex` are implemented over characters exactly as Go's
  `encoding/hex` does (lowercase on encode, both cases accepted on decode,
  length check `len(s) == 24` first).
* The collection is a list of documents; `FindOne`/`ReplaceOne`(upsert)/
  `DeleteOne` by `_id` are pure operations on that list.  I/O failures of
  the driver are modelled by error-injection fields (`findOneErr`,
  `replaceOneErr`, `deleteOneErr`) on the store: `none` means the call
  reaches the pure collection, `some e` means the driver reports error `e`.
* The securecookie codec chain (`securecookie.EncodeMulti` /
  `securecookie.DecodeMulti` over `m.Codecs`) is external to this
  repository; it is abstracted as four functions, one per (direction, Go
  type) pair actually used by the source: the session ID (a `string`) and
  the session values (a map).
* The `Token` transport (`TokenGetSeter` / `CookieToken`) is external to
  the store logic: `GetToken` is modelled by passing `New` an
  `Option String` (`none` = `GetToken` returned an error, i.e. no cookie),
  and `SetToken` calls are recorded in the `tokenOps` output of `Save`.
* `primitive.NewObjectID()` and `time.Now()` are nondeterministic; `Save`
  and `upsert` take them as explicit arguments `newId` / `now`.
-/

/-- Go `interface` values stored in `session.Values`
(`map[interface{}]interface{}`); the source only ever inspects whether a
value is a `time.Time`. Keys used by the source and the spec are strings. -/
inductive GoValue where
  | str : String → GoValue
  | time : Int → GoValue
  | int : Int → GoValue
  | boolean : Bool → GoValue
deriving DecidableEq, Repr

/-- The session values mapping (association list keyed by string). -/
def Values := List (String × GoValue)
deriving DecidableEq, Repr

/-- Map lookup, as Go's `session.Values["modified"]`. -/
def lookupValue : Values → String → Option GoValue
  | [], _ => none
  | (k, v) :: rest, key => if k = key then some v else lookupValue rest key

/-- Cookie options (`sessions.Options`): exactly the fields `New` copies
from the store's options. -/
structure Options where
  path : String
  domain : String
  maxAge : Int
  secure : Bool
  httpOnly : Bool
deriving DecidableEq, Repr

/-- Gorilla `sessions.Session` as used by the store: identifier, name,
values, options and the is-new flag. -/
structure GoSession where
  id : String
  name : String
  values : Values
  options : Options
  isNew : Bool
deriving DecidableEq, Repr

/-- The persisted document (Go struct `Session`):
`ID primitive.ObjectID`, `Data string`, `Modified time.Time`. -/
structure Session where
  id : List Nat
  data : String
  modified : Int
deriving DecidableEq, Repr

/-- The MongoDB collection: the set of stored documents. -/
def Db := List Session
deriving DecidableEq, Repr

/-- `FindOne` by `_id` on the pure collection state. -/
def dbFind : Db → List Nat → Option Session
  | [], _ => none
  | d :: rest, oid => if d.id = oid then some d else dbFind rest oid

/-- `ReplaceOne` with `Upsert: true` by `_id`: replace the matching
document, or insert if absent. -/
def dbReplace : Db → List Nat → Session → Db
  | [], _, doc => [doc]
  | d :: rest, oid, doc => if d.id = oid then doc :: rest else d :: dbReplace rest oid doc

/-- `DeleteOne` by `_id`: remove the matching document. -/
def dbDelete : Db → List Nat → Db
  | [], _ => []
  | d :: rest, oid => if d.id = oid then rest else d :: dbDelete rest oid

/-- Value of a hex digit character, as Go `encoding/hex` accepts them. -/
def hexVal (c : Char) : Option Nat :=
  if '0' ≤ c ∧ c ≤ '9' then some (c.toNat - '0'.toNat)
  else if 'a' ≤ c ∧ c ≤ 'f' then some (c.toNat - 'a'.toNat + 10)
  else if 'A' ≤ c ∧ c ≤ 'F' then some (c.toNat - 'A'.toNat + 10)
  else none

/-- Lowercase hex digit for a value below 16, as Go `encoding/hex` emits. -/
def hexDigit (n : Nat) : Char :=
  if n < 10 then Char.ofNat (n + 48) else Char.ofNat (n + 87)

/-- Hex-encode a byte list (two lowercase digits per byte),
Go `hex.EncodeToString`. -/
def bytesToHex : List Nat → List Char
  | [] => []
  | b :: rest => hexDigit (b / 16) :: hexDigit (b % 16) :: bytesToHex rest

/-- Hex-decode a character list to bytes, Go `hex.Decode`: fails on an odd
length or a non-hex character. -/
def hexToBytes : List Char → Option (List Nat)
  | [] => some []
  | [_] => none
  | c1 :: c2 :: rest =>
    match hexVal c1, hexVal c2, hexToBytes rest with
    | some hi, some lo, some bs => some ((16 * hi + lo) :: bs)
    | _, _, _ => none

/-- Go `primitive.ObjectID.Hex()`: the 24-character lowercase hex string of
the 12 bytes. -/
def oidHex (oid : List Nat) : String := String.mk (bytesToHex oid)

/-- Go `primitive.ObjectIDFromHex`: requires length exactly 24, then
hex-decodes; `none` models a non-nil error. -/
def ObjectIDFromHex (s : String) : Option (List Nat) :=
  if s.length = 24 then hexToBytes s.data else none

/-- A well-formed freshly generated ObjectID: 12 bytes. -/
def validOid (oid : List Nat) : Bool :=
  oid.length == 12 && oid.all (· < 256)

/-- Errors a store operation can surface. `invalidId` is the sentinel
`ErrInvalidId`; `invalidModified` is `"mongodbstore: invalid modified
value"`; `codec e` is an error from the securecookie codec chain;
`db e` is a driver I/O error; `notFound` is `mongo.ErrNoDocuments`. -/
inductive StoreError where
  | invalidId
  | invalidModified
  | codec : Nat → StoreError
  | db : Nat → StoreError
  | notFound
deriving DecidableEq, Repr

/-- The securecookie codec chain of the store, abstracted at the two Go
types the source encodes/decodes (`session.ID : string` and
`session.Values`): `encodeID`/`decodeID` model
`securecookie.EncodeMulti(name, session.ID, codecs...)` /
`securecookie.DecodeMulti(name, cook, &session.ID, codecs...)`, and
`encodeValues`/`decodeValues` the same at `session.Values`. -/
structure CodecOps where
  encodeID : String → String → Except Nat String
  decodeID : String → String → Except Nat String
  encodeValues : String → Values → Except Nat String
  decodeValues : String → String → Except Nat Values

/-- A codec in the store's `Codecs` list, as seen by `MaxAge`'s type
switch: either a `*securecookie.SecureCookie` (whose expiry window
`MaxAge` can update) or a value of any other type implementing
`securecookie.Codec`, carrying whatever expiry its implementation has
(opaque to the store). -/
inductive StoreCodec where
  | secureCookie : Int → StoreCodec
  | custom : Int → StoreCodec
deriving DecidableEq, Repr

/-- Expiry window of a codec. -/
def StoreCodec.expiry : StoreCodec → Int
  | .secureCookie a => a
  | .custom a => a

/-- Whether a codec is a `*securecookie.SecureCookie`. -/
def StoreCodec.isSecure : StoreCodec → Bool
  | .secureCookie _ => true
  | .custom _ => false

/-- The store (`MongoDBStore`): codec chain behaviour, the structural
codec list (for `MaxAge`), default options, the collection state, and
driver error injection for the three collection calls. -/
structure MongoDBStore where
  codecs : CodecOps
  codecList : List StoreCodec
  options : Options
  db : Db
  findOneErr : Option Nat
  replaceOneErr : Option Nat
  deleteOneErr : Option Nat

/-- Result of `Save`: the returned error (if any), the session object
after any mutation `Save` performed, the collection state after the call,
and the `SetToken` calls issued (in order). -/
inductive TokenOp where
  | set : String → String → Options → TokenOp
deriving DecidableEq, Repr

structure SaveResult where
  err : Option StoreError
  session : GoSession
  db : Db
  tokenOps : List TokenOp

/-- `MongoDBStore.MaxAge`: sets `m.Options.MaxAge = age` and walks
`m.Codecs`, calling `sc.MaxAge(age)` on each codec that type-asserts to
`*securecookie.SecureCookie` (others are left untouched). -/
def MongoDBStore.MaxAge (m : MongoDBStore) (age : Int) : MongoDBStore :=
  { m with
    options := { m.options with maxAge := age },
    codecList := m.codecList.map fun c =>
      match c with
      | .secureCookie _ => .secureCookie age
      | .custom a => .custom a }

/-- `FindOne(ctx, bson.D{{"_id", sessionID}}).Decode(&s)`: driver error if
injected, else the document, else `mongo.ErrNoDocuments`. -/
def MongoDBStore.findOne (m : MongoDBStore) (oid : List Nat) : Except StoreError Session :=
  match m.findOneErr with
  | some e => .error (.db e)
  | none =>
    match dbFind m.db oid with
    | some doc => .ok doc
    | none => .error .notFound

/-- `MongoDBStore.load`: parse the session ID (`ErrInvalidId` on failure),
fetch the document, decode its `Data` into the values mapping. Returns the
decoded values (the Go code writes them into `session.Values`). -/
def MongoDBStore.load (m : MongoDBStore) (s : GoSession) : Except StoreError Values :=
  match ObjectIDFromHex s.id with
  | none => .error .invalidId
  | some oid =>
    match m.findOne oid with
    | .error e => .error e
    | .ok doc =>
      match m.codecs.decodeValues s.name doc.data with
      | .error e => .error (.codec e)
      | .ok vals => .ok vals

/-- `MongoDBStore.New`: build a fresh session (options copied from the
store, `IsNew = true`); if `GetToken` yields a cookie, decode it into
`session.ID` (decode errors are surfaced), then try to load; a load error
is swallowed (`err = nil`), a successful load fills the values and clears
`IsNew`. -/
def MongoDBStore.New (m : MongoDBStore) (cook : Option String) (name : String) :
    GoSession × Option StoreError :=
  let session : GoSession :=
    { id := "", name := name, values := [], options := m.options, isNew := true }
  match cook with
  | none => (session, none)
  | some c =>
    match m.codecs.decodeID name c with
    | .error e => (session, some (.codec e))
    | .ok id =>
      let session := { session with id := id }
      match m.load session with
      | .error _ => (session, none)
      | .ok vals => ({ session with values := vals, isNew := false }, none)

/-- Tail of `upsert` after `Modified` has been determined: encode the
values (`securecookie.EncodeMulti`), then `ReplaceOne` with upsert by
`_id`. -/
def MongoDBStore.upsertRest (m : MongoDBStore) (s : GoSession) (oid : List Nat)
    (modified : Int) : Except StoreError Db :=
  match m.codecs.encodeValues s.name s.values with
  | .error e => .error (.codec e)
  | .ok encoded =>
    match m.replaceOneErr with
    | some e => .error (.db e)
    | none => .ok (dbReplace m.db oid { id := oid, data := encoded, modified := modified })

/-- `MongoDBStore.upsert`: parse the session ID (`ErrInvalidId` on
failure); take `Modified` from `session.Values["modified"]` when present
(error if it is not a `time.Time`), else `time.Now()`; encode the values;
`ReplaceOne` with upsert by `_id`. Returns the new collection state. -/
def MongoDBStore.upsert (m : MongoDBStore) (s : GoSession) (now : Int) :
    Except StoreError Db :=
  match ObjectIDFromHex s.id with
  | none => .error .invalidId
  | some oid =>
    match lookupValue s.values "modified" with
    | some (GoValue.time t) => m.upsertRest s oid t
    | some _ => .error .invalidModified
    | none => m.upsertRest s oid now

/-- `MongoDBStore.delete`: parse the session ID (`ErrInvalidId` on
failure), then `DeleteOne` by `_id`. Returns the new collection state. -/
def MongoDBStore.delete (m : MongoDBStore) (s : GoSession) : Except StoreError Db :=
  match ObjectIDFromHex s.id with
  | none => .error .invalidId
  | some oid =>
    match m.deleteOneErr with
    | some e => .error (.db e)
    | none => .ok (dbDelete m.db oid)

/-- The identifier-minting step of `Save`:
`if session.ID == "" { session.ID = primitive.NewObjectID().Hex() }`. -/
def assignId (s : GoSession) (newId : List Nat) : GoSession :=
  if s.id = "" then { s with id := oidHex newId } else s

/-- `MongoDBStore.Save`: on negative `MaxAge`, delete the document
(propagating any error) and clear the cookie; otherwise mint an ID if
empty, upsert, encode the ID into a token, and set the cookie — each
failing step returns its error without reaching `SetToken`. -/
def MongoDBStore.Save (m : MongoDBStore) (session : GoSession) (newId : List Nat)
    (now : Int) : SaveResult :=
  if session.options.maxAge < 0 then
    match m.delete session with
    | .error e => ⟨some e, session, m.db, []⟩
    | .ok db' => ⟨none, session, db', [.set session.name "" session.options]⟩
  else
    let session := assignId session newId
    match m.upsert session now with
    | .error e => ⟨some e, session, m.db, []⟩
    | .ok db' =>
      match m.codecs.encodeID session.name session.id with
      | .error e => ⟨some (.codec e), session, db', []⟩
      | .ok encoded => ⟨none, session, db', [.set session.name encoded session.options]⟩

/-! ### Helper lemmas -/

theorem hexVal_hexDigit (n : Nat) (h : n < 16) : hexVal (hexDigit n) = some n := by
  interval_cases n <;> decide

theorem bytesToHex_length (l : List Nat) : (bytesToHex l).length = 2 * l.length := by
  induction l with
  | nil => rfl
  | cons b rest ih => simp [bytesToHex, ih]; omega

theorem hexToBytes_bytesToHex (l : List Nat) (h : ∀ b ∈ l, b < 256) :
    hexToBytes (bytesToHex l) = some l := by
  induction l with
  | nil => rfl
  | cons b rest ih =>
    have hb : b < 256 := h b (by simp)
    have h1 : b / 16 < 16 := by omega
    have h2 : b % 16 < 16 := by omega
    have ih' := ih (fun x hx => h x (by simp [hx]))
    simp [bytesToHex, hexToBytes, hexVal_hexDigit _ h1, hexVal_hexDigit _ h2, ih']
    omega

theorem oidHex_length (l : List Nat) (h : l.length = 12) : (oidHex l).length = 24 := by
  show (bytesToHex l).length = 24
  rw [bytesToHex_length, h]

theorem validOid_iff (l : List Nat) :
    validOid l = true ↔ l.length = 12 ∧ ∀ b ∈ l, b < 256 := by
  simp [validOid]

theorem ObjectIDFromHex_oidHex (l : List Nat) (h : validOid l = true) :
    ObjectIDFromHex (oidHex l) = some l := by
  obtain ⟨hlen, hlt⟩ := (validOid_iff l).mp h
  unfold ObjectIDFromHex
  rw [if_pos (oidHex_length l hlen)]
  exact hexToBytes_bytesToHex l hlt

theorem bytesToHex_hexChars (l : List Nat) (h : ∀ b ∈ l, b < 256) :
    ∀ c ∈ bytesToHex l, (hexVal c).isSome := by
  induction l with
  | nil => intro c hc; cases hc
  | cons b rest ih =>
    intro c hc
    have hb : b < 256 := h b (by simp)
    simp only [bytesToHex, List.mem_cons] at hc
    rcases hc with rfl | rfl | hc
    · rw [hexVal_hexDigit _ (by omega)]; rfl
    · rw [hexVal_hexDigit _ (by omega)]; rfl
    · exact ih (fun x hx => h x (by simp [hx])) c hc

theorem dbFind_dbReplace (db : Db) (oid : List Nat) (doc : Session) (h : doc.id = oid) :
    dbFind (dbReplace db oid doc) oid = some doc := by
  induction db with
  | nil => simp [dbReplace, dbFind, h]
  | cons d rest ih =>
    by_cases hd : d.id = oid
    · simp [dbReplace, hd, dbFind, h]
    · simp [dbReplace, hd, dbFind, ih]

theorem assignId_name (s : GoSession) (newId : List Nat) :
    (assignId s newId).name = s.name := by
  unfold assignId; split <;> rfl

theorem assignId_values (s : GoSession) (newId : List Nat) :
    (assignId s newId).values = s.values := by
  unfold assignId; split <;> rfl

theorem assignId_options (s : GoSession) (newId : List Nat) :
    (assignId s newId).options = s.options := by
  unfold assignId; split <;> rfl

theorem assignId_isNew (s : GoSession) (newId : List Nat) :
    (assignId s newId).isNew = s.isNew := by
  unfold assignId; split <;> rfl

theorem assignId_of_empty (s : GoSession) (newId : List Nat) (h : s.id = "") :
    assignId s newId = { s with id := oidHex newId } := by
  simp [assignId, h]

/-- Helper: with non-negative max-age, the session object `Save` returns is
the input session after the identifier-minting step, in every outcome. -/
theorem save_session_eq (m : MongoDBStore) (s : GoSession) (newId : List Nat) (now : Int)
    (hage : 0 ≤ s.options.maxAge) :
    (m.Save s newId now).session = assignId s newId := by
  have hneg : ¬ s.options.maxAge < 0 := not_lt.mpr hage
  simp only [MongoDBStore.Save, if_neg hneg]
  split
  · rfl
  · split <;> rfl

/-- Helper: with non-negative max-age, `Save`'s error field is determined
by the upsert and the cookie-encode, exactly as in the source. -/
theorem save_err_eq (m : MongoDBStore) (s : GoSession) (newId : List Nat) (now : Int)
    (hage : 0 ≤ s.options.maxAge) :
    (∀ e, m.upsert (assignId s newId) now = .error e → m.Save s newId now =
      ⟨some e, assignId s newId, m.db, []⟩) ∧
    (∀ db' e, m.upsert (assignId s newId) now = .ok db' →
      m.codecs.encodeID (assignId s newId).name (assignId s newId).id = .error e →
      m.Save s newId now = ⟨some (.codec e), assignId s newId, db', []⟩) ∧
    (∀ db' enc, m.upsert (assignId s newId) now = .ok db' →
      m.codecs.encodeID (assignId s newId).name (assignId s newId).id = .ok enc →
      m.Save s newId now =
        ⟨none, assignId s newId, db',
         [.set (assignId s newId).name enc (assignId s newId).options]⟩) := by
  have hneg : ¬ s.options.maxAge < 0 := not_lt.mpr hage
  refine ⟨?_, ?_, ?_⟩
  · intro e hup
    simp only [MongoDBStore.Save, if_neg hneg, hup]
  · intro db' e hup henc
    simp only [MongoDBStore.Save, if_neg hneg, hup, henc]
  · intro db' enc hup henc
    simp only [MongoDBStore.Save, if_neg hneg, hup, henc]

/-- C7: for every session whose identifier is the empty string, `Save` with
non-negative max-age assigns it a freshly generated identifier that is
exactly 24 hexadecimal characters (hex-decodable to the 12-byte key)
before performing the upsert. -/
theorem save_mintsHexId (m : MongoDBStore) (s : GoSession) (newId : List Nat) (now : Int)
    (hid : s.id = "") (hage : 0 ≤ s.options.maxAge) (hvalid : validOid newId = true) :
    (m.Save s newId now).session.id = oidHex newId ∧
    assignId s newId = { s with id := oidHex newId } ∧
    (oidHex newId).length = 24 ∧
    (∀ c ∈ (oidHex newId).data, (hexVal c).isSome) ∧
    ObjectIDFromHex (oidHex newId) = some newId ∧
    newId.length = 12 := by
  obtain ⟨hlen, hlt⟩ := (validOid_iff newId).mp hvalid
  refine ⟨?_, assignId_of_empty s newId hid, oidHex_length newId hlen,
    bytesToHex_hexChars newId hlt, ObjectIDFromHex_oidHex newId hvalid, hlen⟩
  rw [save_session_eq m s newId now hage, assignId_of_empty s newId hid]

/-- Concrete fixture: codecs that pass the identifier through unchanged and
encode any values to the empty blob. -/
def idCodecs : CodecOps :=
  ⟨fun _ i => .ok i, fun _ t => .ok t, fun _ _ => .ok "", fun _ _ => .ok []⟩

/-- Concrete fixture: default cookie options with max-age 3600. -/
def baseOptions : Options := ⟨"/", "", 3600, false, false⟩

/-- Concrete fixture: a store with pass-through codecs, empty collection and
no injected driver errors. -/
def baseStore : MongoDBStore := ⟨idCodecs, [], baseOptions, [], none, none, none⟩

/-- Concrete fixture: a never-saved session (empty identifier). -/
def emptySession : GoSession := ⟨"", "sess", [], baseOptions, true⟩

/-- Concrete fixture: a 12-byte ObjectID. -/
def sampleOid : List Nat := [0, 1, 2, 3, 4, 5, 6, 7, 8, 9, 10, 255]

/-- C7 witness: a concrete empty-id session gets the minted 24-hex-char id. -/
theorem save_mintsHexId_witness :
    emptySession.id = "" ∧ (0 : Int) ≤ emptySession.options.maxAge ∧
    validOid sampleOid = true ∧
    (baseStore.Save emptySession sampleOid 0).session.id = oidHex sampleOid ∧
    (oidHex sampleOid).length = 24 ∧
    ObjectIDFromHex (oidHex sampleOid) = some sampleOid := by
  have h := save_mintsHexId baseStore emptySession sampleOid 0 rfl (by decide) (by decide)
  exact ⟨rfl, by decide, by decide, h.1, h.2.2.1, h.2.2.2.2.1⟩

/-- C10: `Save` with non-negative max-age on an empty-identifier session
writes the minted identifier into the session object before the upsert is
attempted (the upsert runs on the mutated session), the assignment persists
in every outcome of `Save`, errors included, and every other session field
(name, values, options, is-new flag) is left unchanged. -/
theorem save_assignsId_frame (m : MongoDBStore) (s : GoSession) (newId : List Nat)
    (now : Int) (hid : s.id = "") (hage : 0 ≤ s.options.maxAge) :
    (m.Save s newId now).session.id = oidHex newId ∧
    (m.Save s newId now).session.name = s.name ∧
    (m.Save s newId now).session.values = s.values ∧
    (m.Save s newId now).session.options = s.options ∧
    (m.Save s newId now).session.isNew = s.isNew ∧
    (∀ e, m.upsert { s with id := oidHex newId } now = .error e →
      (m.Save s newId now).err = some e ∧
      (m.Save s newId now).session.id = oidHex newId) := by
  have hsess := save_session_eq m s newId now hage
  have hassign := assignId_of_empty s newId hid
  refine ⟨?_, ?_, ?_, ?_, ?_, ?_⟩
  · rw [hsess, hassign]
  · rw [hsess, assignId_name]
  · rw [hsess, assignId_values]
  · rw [hsess, assignId_options]
  · rw [hsess, assignId_isNew]
  · intro e hup
    rw [← hassign] at hup
    have h := (save_err_eq m s newId now hage).1 e hup
    rw [h, hassign]
    exact ⟨rfl, rfl⟩

/-- Concrete fixture: a never-saved session carrying an ill-typed reserved
`modified` value, so that the upsert fails after the identifier was minted. -/
def badModifiedSession : GoSession :=
  ⟨"", "sess", [("modified", GoValue.str "oops")], baseOptions, true⟩

/-- C10 witness: on a concrete failing save (ill-typed `modified` value),
the minted identifier is still assigned and the other fields are intact. -/
theorem save_assignsId_frame_witness :
    badModifiedSession.id = "" ∧ (0 : Int) ≤ badModifiedSession.options.maxAge ∧
    (baseStore.Save badModifiedSession sampleOid 0).err = some StoreError.invalidModified ∧
    (baseStore.Save badModifiedSession sampleOid 0).session.id = oidHex sampleOid ∧
    (baseStore.Save badModifiedSession sampleOid 0).session.values =
      [("modified", GoValue.str "oops")] ∧
    (baseStore.Save badModifiedSession sampleOid 0).session.isNew = true := by
  have h := save_assignsId_frame baseStore badModifiedSession sampleOid 0 rfl (by decide)
  exact ⟨rfl, by decide, (h.2.2.2.2.2 StoreError.invalidModified rfl).1, h.1,
    h.2.2.1.trans rfl, h.2.2.2.2.1.trans rfl⟩

/-- Concrete fixture: options with negative max-age (delete-on-save). -/
def negOptions : Options := ⟨"/", "", -1, false, false⟩

/-- Concrete fixture: a never-saved session whose options request
delete-on-save. -/
def negSession : GoSession := ⟨"", "sess", [], negOptions, true⟩

/-- C2 counterexample: `Save` with negative max-age on a never-saved
session (empty identifier) returns the `ErrInvalidId` sentinel, not the
nil error the claim asserts. -/
theorem save_negMaxAge_cex :
    (baseStore.Save negSession [] 0).err = some StoreError.invalidId ∧
    (baseStore.Save negSession [] 0).err ≠ none := by
  exact ⟨rfl, by decide⟩

/-- C2 (amended): `Save` with negative max-age on a never-saved session
(empty identifier) returns the `ErrInvalidId` sentinel — not a nil error —
on the first call and again on a second call on the returned session and
collection state; neither call creates a document, mutates the session, or
issues any token operation. -/
theorem save_negMaxAge_invalidId (m : MongoDBStore) (s : GoSession)
    (newId newId2 : List Nat) (now now2 : Int)
    (hid : s.id = "") (hage : s.options.maxAge < 0) :
    (m.Save s newId now).err = some StoreError.invalidId ∧
    (m.Save s newId now).db = m.db ∧
    (m.Save s newId now).session = s ∧
    (m.Save s newId now).tokenOps = [] ∧
    (({ m with db := (m.Save s newId now).db }).Save (m.Save s newId now).session
        newId2 now2).err = some StoreError.invalidId := by
  have hbad : ObjectIDFromHex s.id = none := by rw [hid]; rfl
  have hdel : m.delete s = .error .invalidId := by
    unfold MongoDBStore.delete; rw [hbad]
  have h1 : m.Save s newId now = ⟨some .invalidId, s, m.db, []⟩ := by
    unfold MongoDBStore.Save; rw [if_pos hage, hdel]
  rw [h1]
  refine ⟨rfl, rfl, rfl, rfl, ?_⟩
  show (m.Save s newId2 now2).err = some StoreError.invalidId
  have h2 : m.Save s newId2 now2 = ⟨some .invalidId, s, m.db, []⟩ := by
    unfold MongoDBStore.Save; rw [if_pos hage, hdel]
  rw [h2]

/-- C2 (amended) witness: both concrete calls return `ErrInvalidId` and
leave the empty collection empty. -/
theorem save_negMaxAge_invalidId_witness :
    negSession.id = "" ∧ negSession.options.maxAge < 0 ∧
    (baseStore.Save negSession [] 0).err = some StoreError.invalidId ∧
    (baseStore.Save negSession [] 0).db = baseStore.db ∧
    (baseStore.Save negSession [] 0).tokenOps = [] ∧
    (({ baseStore with db := (baseStore.Save negSession [] 0).db }).Save
        (baseStore.Save negSession [] 0).session [] 0).err =
      some StoreError.invalidId := by
  have h := save_negMaxAge_invalidId baseStore negSession [] [] 0 0 rfl (by decide)
  exact ⟨rfl, by decide, h.1, h.2.1, h.2.2.2.1, h.2.2.2.2⟩

/-- Helper: `New` swallows any load error, returning the fresh session
(with the decoded identifier) and a nil error. -/
theorem new_of_load_error (m : MongoDBStore) (c name id : String) (e : StoreError)
    (hdec : m.codecs.decodeID name c = .ok id)
    (hload : m.load ⟨id, name, [], m.options, true⟩ = .error e) :
    m.New (some c) name = (⟨id, name, [], m.options, true⟩, none) := by
  simp only [MongoDBStore.New, hdec]
  simp only [hload]

/-- Concrete fixture: a store whose codec chain decodes any token to an
identifier that does not parse as an ObjectID. -/
def badIdStore : MongoDBStore :=
  ⟨⟨fun _ i => .ok i, fun _ _ => .ok "not-a-hex-id", fun _ _ => .ok "",
    fun _ _ => .ok []⟩, [], baseOptions, [], none, none, none⟩

/-- C3 counterexample: on a token decoding to an unparsable identifier,
`New` returns a nil error (the invalid-session-id error is swallowed), not
the "invalid session id" error the claim asserts it returns. -/
theorem new_invalidId_cex :
    (badIdStore.New (some "tok") "sess").2 = none ∧
    (badIdStore.New (some "tok") "sess").2 ≠ some StoreError.invalidId ∧
    (badIdStore.New (some "tok") "sess").1.isNew = true := by
  exact ⟨rfl, by decide, rfl⟩

/-- C3 (amended): for every request whose cookie token decodes successfully
to an identifier that does not parse into the expected 12-byte key format,
`New` swallows the invalid-session-id error: it returns a valid fresh
is-new=true session (empty values) together with a nil error. -/
theorem new_invalidId_swallowed (m : MongoDBStore) (c name id : String)
    (hdec : m.codecs.decodeID name c = .ok id)
    (hbad : ObjectIDFromHex id = none) :
    (m.New (some c) name).2 = none ∧
    (m.New (some c) name).1.isNew = true ∧
    (m.New (some c) name).1.values = [] := by
  have hload : m.load ⟨id, name, [], m.options, true⟩ = .error .invalidId := by
    unfold MongoDBStore.load; rw [hbad]
  rw [new_of_load_error m c name id .invalidId hdec hload]
  exact ⟨rfl, rfl, rfl⟩

/-- C3 (amended) witness: the concrete unparsable-identifier case yields a
nil error and a fresh session. -/
theorem new_invalidId_swallowed_witness :
    badIdStore.codecs.decodeID "sess" "tok" = .ok "not-a-hex-id" ∧
    ObjectIDFromHex "not-a-hex-id" = none ∧
    (badIdStore.New (some "tok") "sess").2 = none ∧
    (badIdStore.New (some "tok") "sess").1.isNew = true ∧
    (badIdStore.New (some "tok") "sess").1.values = [] := by
  have h := new_invalidId_swallowed badIdStore "tok" "sess" "not-a-hex-id" rfl rfl
  exact ⟨rfl, rfl, h.1, h.2.1, h.2.2⟩

/-- C4: for every request whose cookie token decodes to a syntactically
valid identifier for which no document exists in the collection, or whose
document's data blob fails to decode, `New` returns a fresh session with
is-new = true and a nil error (the load failure is swallowed). -/
theorem new_loadFailure_fresh (m : MongoDBStore) (c name id : String) (oid : List Nat)
    (hdec : m.codecs.decodeID name c = .ok id)
    (hoid : ObjectIDFromHex id = some oid)
    (hio : m.findOneErr = none)
    (hfail : dbFind m.db oid = none ∨
      ∃ doc, dbFind m.db oid = some doc ∧
        ∃ e, m.codecs.decodeValues name doc.data = .error e) :
    (m.New (some c) name).2 = none ∧
    (m.New (some c) name).1.isNew = true ∧
    (m.New (some c) name).1.values = [] := by
  have hload : ∃ e, m.load ⟨id, name, [], m.options, true⟩ = .error e := by
    rcases hfail with hmiss | ⟨doc, hdoc, e, hdecv⟩
    · exact ⟨.notFound,
        by simp only [MongoDBStore.load, MongoDBStore.findOne, hoid, hio, hmiss]⟩
    · exact ⟨.codec e,
        by simp only [MongoDBStore.load, MongoDBStore.findOne, hoid, hio, hdoc, hdecv]⟩
  obtain ⟨e, hl⟩ := hload
  rw [new_of_load_error m c name id e hdec hl]
  exact ⟨rfl, rfl, rfl⟩

/-- C4 witness: a valid, never-persisted identifier loaded against an empty
collection yields a fresh session and a nil error. -/
theorem new_loadFailure_fresh_witness :
    baseStore.codecs.decodeID "sess" (oidHex sampleOid) = .ok (oidHex sampleOid) ∧
    ObjectIDFromHex (oidHex sampleOid) = some sampleOid ∧
    dbFind baseStore.db sampleOid = none ∧
    (baseStore.New (some (oidHex sampleOid)) "sess").2 = none ∧
    (baseStore.New (some (oidHex sampleOid)) "sess").1.isNew = true := by
  have h := new_loadFailure_fresh baseStore (oidHex sampleOid) "sess" (oidHex sampleOid)
    sampleOid rfl (ObjectIDFromHex_oidHex sampleOid (by decide)) rfl (Or.inl rfl)
  exact ⟨rfl, ObjectIDFromHex_oidHex sampleOid (by decide), rfl, h.1, h.2.1⟩

/-- C5: a cookie token the codec chain cannot authenticate-decode makes
`New` return the decode error to the caller along with a fresh is-new=true
session; when no cookie token is present, `New` returns no error. -/
theorem new_decodeError_surfaced (m : MongoDBStore) (name : String) :
    (∀ c e, m.codecs.decodeID name c = .error e →
      (m.New (some c) name).2 = some (StoreError.codec e) ∧
      (m.New (some c) name).1.isNew = true ∧
      (m.New (some c) name).1.values = []) ∧
    (m.New none name).2 = none := by
  constructor
  · intro c e hdec
    refine ⟨?_, ?_, ?_⟩ <;> simp [MongoDBStore.New, hdec]
  · rfl

/-- Concrete fixture: a store whose codec chain rejects every token. -/
def failDecodeStore : MongoDBStore :=
  ⟨⟨fun _ i => .ok i, fun _ _ => .error 7, fun _ _ => .ok "", fun _ _ => .ok []⟩,
   [], baseOptions, [], none, none, none⟩

/-- C5 witness: a rejected token surfaces the decode error with a fresh
session, and an absent token yields no error. -/
theorem new_decodeError_surfaced_witness :
    failDecodeStore.codecs.decodeID "sess" "tampered" = .error 7 ∧
    (failDecodeStore.New (some "tampered") "sess").2 = some (StoreError.codec 7) ∧
    (failDecodeStore.New (some "tampered") "sess").1.isNew = true ∧
    (failDecodeStore.New none "sess").2 = none := by
  have h := new_decodeError_surfaced failDecodeStore "sess"
  exact ⟨rfl, (h.1 "tampered" 7 rfl).1, (h.1 "tampered" 7 rfl).2.1, h.2⟩

/-- Concrete fixture: a store whose codec list holds one non-SecureCookie
codec with its own expiry window of 5 seconds. -/
def customCodecStore : MongoDBStore :=
  ⟨idCodecs, [StoreCodec.custom 5], baseOptions, [], none, none, none⟩

/-- C9 counterexample: calling `MaxAge 10` on a store whose codec list
contains a codec that is not a `*securecookie.SecureCookie` leaves that
codec's expiry window at 5, so not every configured codec is updated to
the new max-age. -/
theorem maxAge_cex :
    (customCodecStore.MaxAge 10).options.maxAge = 10 ∧
    (customCodecStore.MaxAge 10).codecList = [StoreCodec.custom 5] ∧
    ¬ (∀ c ∈ (customCodecStore.MaxAge 10).codecList, StoreCodec.expiry c = 10) := by
  refine ⟨rfl, rfl, ?_⟩
  intro h
  have := h (StoreCodec.custom 5) (by decide)
  simp [StoreCodec.expiry] at this

/-- C9 (amended): `MaxAge N` sets the store's default `Options.MaxAge` to
`N` and updates the expiry window of every codec in the `Codecs` list that
is a `*securecookie.SecureCookie` to `N`; codecs of any other type are
left in the list untouched. -/
theorem maxAge_updates (m : MongoDBStore) (N : Int) :
    (m.MaxAge N).options.maxAge = N ∧
    (∀ c ∈ (m.MaxAge N).codecList, c.isSecure = true → c.expiry = N) ∧
    (∀ c ∈ m.codecList, c.isSecure = true →
      StoreCodec.secureCookie N ∈ (m.MaxAge N).codecList) ∧
    (∀ c ∈ m.codecList, c.isSecure = false → c ∈ (m.MaxAge N).codecList) := by
  refine ⟨rfl, ?_, ?_, ?_⟩
  · intro c hc hsec
    simp only [MongoDBStore.MaxAge, List.mem_map] at hc
    obtain ⟨c0, _, rfl⟩ := hc
    cases c0 with
    | secureCookie a => rfl
    | custom a => simp [StoreCodec.isSecure] at hsec
  · intro c hc hsec
    cases c with
    | secureCookie a =>
      simp only [MongoDBStore.MaxAge, List.mem_map]
      exact ⟨.secureCookie a, hc, rfl⟩
    | custom a => simp [StoreCodec.isSecure] at hsec
  · intro c hc hsec
    cases c with
    | secureCookie a => simp [StoreCodec.isSecure] at hsec
    | custom a =>
      simp only [MongoDBStore.MaxAge, List.mem_map]
      exact ⟨.custom a, hc, rfl⟩

/-- Concrete fixture: a store with one SecureCookie codec (expiry 3600)
and one non-SecureCookie codec (expiry 5). -/
def mixedCodecStore : MongoDBStore :=
  ⟨idCodecs, [StoreCodec.secureCookie 3600, StoreCodec.custom 5], baseOptions,
   [], none, none, none⟩

/-- C9 (amended) witness: on a concrete mixed codec list, `MaxAge 10` sets
the option, rewrites the SecureCookie codec to expiry 10, and keeps the
custom codec. -/
theorem maxAge_updates_witness :
    (mixedCodecStore.MaxAge 10).options.maxAge = 10 ∧
    StoreCodec.secureCookie 10 ∈ (mixedCodecStore.MaxAge 10).codecList ∧
    StoreCodec.custom 5 ∈ (mixedCodecStore.MaxAge 10).codecList := by
  have h := maxAge_updates mixedCodecStore 10
  exact ⟨h.1, h.2.2.1 (StoreCodec.secureCookie 3600) (by decide) rfl,
    h.2.2.2 (StoreCodec.custom 5) (by decide) rfl⟩

/-- C6: with non-negative max-age, if the upsert (including the codec
encoding of the values and the database replace) or the identifier
cookie-encode fails, `Save` returns that error and issues no `SetToken`
call; a `SetToken` call happens only when the upsert has succeeded, and
then the collection state is the upsert's result. -/
theorem save_cookieOnlyAfterUpsert (m : MongoDBStore) (s : GoSession) (newId : List Nat)
    (now : Int) (hage : 0 ≤ s.options.maxAge) :
    ((m.Save s newId now).err ≠ none → (m.Save s newId now).tokenOps = []) ∧
    (∀ e, m.upsert (assignId s newId) now = .error e →
      (m.Save s newId now).err = some e ∧ (m.Save s newId now).tokenOps = [] ∧
      (m.Save s newId now).db = m.db) ∧
    (∀ db' e, m.upsert (assignId s newId) now = .ok db' →
      m.codecs.encodeID s.name (assignId s newId).id = .error e →
      (m.Save s newId now).err = some (StoreError.codec e) ∧
      (m.Save s newId now).tokenOps = []) ∧
    ((m.Save s newId now).tokenOps ≠ [] →
      (m.Save s newId now).err = none ∧
      m.upsert (assignId s newId) now = .ok (m.Save s newId now).db) := by
  have hneg : ¬ s.options.maxAge < 0 := not_lt.mpr hage
  have hn := assignId_name s newId
  rcases hup : m.upsert (assignId s newId) now with e | db'
  · have hs : m.Save s newId now = ⟨some e, assignId s newId, m.db, []⟩ := by
      simp only [MongoDBStore.Save, if_neg hneg, hup]
    rw [hs]
    refine ⟨fun _ => rfl, fun e' hup' => ?_, fun db'' e' hup' henc' => ?_,
      fun hne => absurd rfl hne⟩
    · injection hup' with h
      subst h
      exact ⟨rfl, rfl, rfl⟩
    · exact absurd hup' (by simp)
  · rcases henc : m.codecs.encodeID (assignId s newId).name (assignId s newId).id
      with e | enc
    · have hs : m.Save s newId now = ⟨some (.codec e), assignId s newId, db', []⟩ := by
        simp only [MongoDBStore.Save, if_neg hneg, hup, henc]
      rw [hn] at henc
      rw [hs]
      refine ⟨fun _ => rfl, fun e' hup' => ?_, fun db'' e' hup' henc' => ?_,
        fun hne => absurd rfl hne⟩
      · exact absurd hup' (by simp)
      · injection hup' with h
        subst h
        rw [henc] at henc'
        injection henc' with h2
        subst h2
        exact ⟨rfl, rfl⟩
    · have hs : m.Save s newId now =
          ⟨none, assignId s newId, db',
           [.set (assignId s newId).name enc (assignId s newId).options]⟩ := by
        simp only [MongoDBStore.Save, if_neg hneg, hup, henc]
      rw [hn] at henc
      rw [hs]
      refine ⟨fun h => absurd rfl h, fun e' hup' => ?_, fun db'' e' hup' henc' => ?_,
        fun _ => ⟨rfl, rfl⟩⟩
      · exact absurd hup' (by simp)
      · injection hup' with h
        subst h
        rw [henc] at henc'
        exact absurd henc' (by simp)

/-- C6 witness: a concrete failing upsert (ill-typed reserved `modified`
value) makes `Save` return that error, with no token operation and an
unchanged collection. -/
theorem save_cookieOnlyAfterUpsert_witness :
    (0 : Int) ≤ badModifiedSession.options.maxAge ∧
    (baseStore.Save badModifiedSession sampleOid 0).err =
      some StoreError.invalidModified ∧
    (baseStore.Save badModifiedSession sampleOid 0).tokenOps = [] ∧
    (baseStore.Save badModifiedSession sampleOid 0).db = baseStore.db := by
  have h := save_cookieOnlyAfterUpsert baseStore badModifiedSession sampleOid 0 (by decide)
  have h2 := h.2.1 StoreError.invalidModified rfl
  exact ⟨by decide, h2.1, h2.2.1, h2.2.2⟩

/-- Helper: inversion of a successful `upsertRest`: the values encoded, no
driver error, and the collection is the replace-or-insert result. -/
theorem upsertRest_ok_inv (m : MongoDBStore) (s : GoSession) (oid : List Nat)
    (modified : Int) (db' : Db) (h : m.upsertRest s oid modified = .ok db') :
    ∃ encV, m.codecs.encodeValues s.name s.values = .ok encV ∧
      m.replaceOneErr = none ∧
      db' = dbReplace m.db oid ⟨oid, encV, modified⟩ := by
  unfold MongoDBStore.upsertRest at h
  rcases henc : m.codecs.encodeValues s.name s.values with e | encV
  · rw [henc] at h
    exact absurd h (by simp)
  · rw [henc] at h
    rcases hrep : m.replaceOneErr with _ | e
    · rw [hrep] at h
      injection h with h2
      exact ⟨encV, rfl, rfl, h2.symm⟩
    · rw [hrep] at h
      exact absurd h (by simp)

/-- C8: if the values mapping holds the reserved key `modified` with a
timestamp `T`, a successful upsert persists a document whose `Modified`
field is exactly `T`; if the key is absent, the persisted `Modified` is
the save-time clock `now`; if the key holds a non-timestamp value, `Save`
returns the invalid-modified error and writes no document. -/
theorem upsert_modifiedPinning (m : MongoDBStore) (s : GoSession) (now : Int)
    (oid : List Nat) (hoid : ObjectIDFromHex s.id = some oid) :
    (∀ T db', lookupValue s.values "modified" = some (GoValue.time T) →
      m.upsert s now = .ok db' →
      ∃ d, dbFind db' oid = some d ∧ d.modified = T) ∧
    (∀ db', lookupValue s.values "modified" = none →
      m.upsert s now = .ok db' →
      ∃ d, dbFind db' oid = some d ∧ d.modified = now) ∧
    (∀ v newId, lookupValue s.values "modified" = some v →
      (∀ T, v ≠ GoValue.time T) → 0 ≤ s.options.maxAge →
      (m.Save s newId now).err = some StoreError.invalidModified ∧
      (m.Save s newId now).db = m.db ∧
      (m.Save s newId now).tokenOps = []) := by
  refine ⟨?_, ?_, ?_⟩
  · intro T db' hmod hup
    simp only [MongoDBStore.upsert, hoid, hmod] at hup
    obtain ⟨encV, henc, hrep, rfl⟩ := upsertRest_ok_inv m s oid T db' hup
    exact ⟨_, dbFind_dbReplace m.db oid ⟨oid, encV, T⟩ rfl, rfl⟩
  · intro db' hmod hup
    simp only [MongoDBStore.upsert, hoid, hmod] at hup
    obtain ⟨encV, henc, hrep, rfl⟩ := upsertRest_ok_inv m s oid now db' hup
    exact ⟨_, dbFind_dbReplace m.db oid ⟨oid, encV, now⟩ rfl, rfl⟩
  · intro v newId hmod hnt hage
    have hneg : ¬ s.options.maxAge < 0 := not_lt.mpr hage
    have hne : s.id ≠ "" := by
      intro h0
      rw [h0] at hoid
      exact Option.noConfusion hoid
    have hassign : assignId s newId = s := by
      unfold assignId
      rw [if_neg hne]
    have hup : m.upsert s now = .error .invalidModified := by
      cases v with
      | time t => exact absurd rfl (hnt t)
      | str a => simp only [MongoDBStore.upsert, hoid, hmod]
      | int a => simp only [MongoDBStore.upsert, hoid, hmod]
      | boolean a => simp only [MongoDBStore.upsert, hoid, hmod]
    have hsave : m.Save s newId now = ⟨some .invalidModified, s, m.db, []⟩ := by
      simp only [MongoDBStore.Save, if_neg hneg, hassign, hup]
    rw [hsave]
    exact ⟨rfl, rfl, rfl⟩

/-- Concrete fixture: a session with a parsable identifier whose values pin
the reserved `modified` key to timestamp 42. -/
def pinnedSession : GoSession :=
  ⟨oidHex sampleOid, "sess", [("modified", GoValue.time 42)], baseOptions, false⟩

/-- C8 witness: the concrete pinned session persists a document whose
`Modified` field is exactly 42, not the save-time clock 0. -/
theorem upsert_modifiedPinning_witness :
    ObjectIDFromHex pinnedSession.id = some sampleOid ∧
    lookupValue pinnedSession.values "modified" = some (GoValue.time 42) ∧
    baseStore.upsert pinnedSession 0 = .ok [⟨sampleOid, "", 42⟩] ∧
    (∃ d, dbFind [⟨sampleOid, "", 42⟩] sampleOid = some d ∧ d.modified = 42) := by
  have hoid := ObjectIDFromHex_oidHex sampleOid (by decide)
  have h := upsert_modifiedPinning baseStore pinnedSession 0 sampleOid hoid
  exact ⟨hoid, rfl, rfl, h.1 42 [⟨sampleOid, "", 42⟩] rfl rfl⟩

/-- Helper: inversion of a successful `upsert`: the identifier parsed, the
values encoded, no driver error, and the collection is the
replace-or-insert of a document carrying some `Modified` stamp. -/
theorem upsert_ok_inv (m : MongoDBStore) (s : GoSession) (now : Int) (db' : Db)
    (h : m.upsert s now = .ok db') :
    ∃ oid md encV, ObjectIDFromHex s.id = some oid ∧
      m.codecs.encodeValues s.name s.values = .ok encV ∧
      m.replaceOneErr = none ∧
      db' = dbReplace m.db oid ⟨oid, encV, md⟩ := by
  rcases hoid : ObjectIDFromHex s.id with _ | oid
  · simp only [MongoDBStore.upsert, hoid] at h
    exact absurd h (by simp)
  · simp only [MongoDBStore.upsert, hoid] at h
    rcases hl : lookupValue s.values "modified" with _ | v
    · simp only [hl] at h
      obtain ⟨encV, henc, hrep, rfl⟩ := upsertRest_ok_inv m s oid now db' h
      exact ⟨oid, now, encV, rfl, henc, hrep, rfl⟩
    · cases v with
      | time t =>
        simp only [hl] at h
        obtain ⟨encV, henc, hrep, rfl⟩ := upsertRest_ok_inv m s oid t db' h
        exact ⟨oid, t, encV, rfl, henc, hrep, rfl⟩
      | str a =>
        simp only [hl] at h
        exact absurd h (by simp)
      | int a =>
        simp only [hl] at h
        exact absurd h (by simp)
      | boolean a =>
        simp only [hl] at h
        exact absurd h (by simp)

/-- C1: a session saved successfully with non-negative max-age and values
`V`, when loaded by `New` from the cookie token that `Save` set (against
the collection state `Save` produced), yields a session whose values are
exactly `V` and whose is-new flag is false, with no error.  The codec
hypotheses state that the external securecookie chain decodes what it
encoded, at the two points used. -/
theorem save_load_roundTrip (m : MongoDBStore) (s : GoSession) (newId : List Nat)
    (now : Int) (tok : String)
    (hage : 0 ≤ s.options.maxAge)
    (hio : m.findOneErr = none)
    (hidc : ∀ n i t, m.codecs.encodeID n i = .ok t → m.codecs.decodeID n t = .ok i)
    (hvc : ∀ d, m.codecs.encodeValues s.name s.values = .ok d →
      m.codecs.decodeValues s.name d = .ok s.values)
    (herr : (m.Save s newId now).err = none)
    (htok : (m.Save s newId now).tokenOps = [TokenOp.set s.name tok s.options]) :
    (MongoDBStore.New { m with db := (m.Save s newId now).db } (some tok) s.name).1.values
      = s.values ∧
    (MongoDBStore.New { m with db := (m.Save s newId now).db } (some tok) s.name).1.isNew
      = false ∧
    (MongoDBStore.New { m with db := (m.Save s newId now).db } (some tok) s.name).2
      = none := by
  have hneg : ¬ s.options.maxAge < 0 := not_lt.mpr hage
  rcases hup : m.upsert (assignId s newId) now with e | db'
  · have hs : m.Save s newId now = ⟨some e, assignId s newId, m.db, []⟩ := by
      simp only [MongoDBStore.Save, if_neg hneg, hup]
    rw [hs] at herr
    exact absurd herr (by simp)
  rcases henc : m.codecs.encodeID (assignId s newId).name (assignId s newId).id
    with e | enc
  · have hs : m.Save s newId now = ⟨some (.codec e), assignId s newId, db', []⟩ := by
      simp only [MongoDBStore.Save, if_neg hneg, hup, henc]
    rw [hs] at herr
    exact absurd herr (by simp)
  have hs : m.Save s newId now =
      ⟨none, assignId s newId, db',
       [.set (assignId s newId).name enc (assignId s newId).options]⟩ := by
    simp only [MongoDBStore.Save, if_neg hneg, hup, henc]
  rw [hs] at htok
  obtain ⟨hn2, htk, hopts⟩ :
      (assignId s newId).name = s.name ∧ enc = tok ∧
        (assignId s newId).options = s.options := by
    simpa using htok
  subst htk
  obtain ⟨oid, md, encV, hoid, hencV, hrep, rfl⟩ := upsert_ok_inv m _ now db' hup
  have hdb : (m.Save s newId now).db = dbReplace m.db oid ⟨oid, encV, md⟩ := by
    rw [hs]
  have hdec : m.codecs.decodeID s.name enc = .ok (assignId s newId).id := by
    have h := hidc (assignId s newId).name (assignId s newId).id enc henc
    rwa [hn2] at h
  have hencV' : m.codecs.encodeValues s.name s.values = .ok encV := by
    rw [← assignId_name s newId, ← assignId_values s newId]
    exact hencV
  have hdecV := hvc encV hencV'
  have hload : MongoDBStore.load { m with db := dbReplace m.db oid ⟨oid, encV, md⟩ }
      ⟨(assignId s newId).id, s.name, [], m.options, true⟩ = .ok s.values := by
    simp only [MongoDBStore.load, MongoDBStore.findOne, hoid, hio,
      dbFind_dbReplace m.db oid ⟨oid, encV, md⟩ rfl, hdecV]
  have hnew : MongoDBStore.New { m with db := dbReplace m.db oid ⟨oid, encV, md⟩ }
      (some enc) s.name =
      (⟨(assignId s newId).id, s.name, s.values, m.options, false⟩, none) := by
    simp only [MongoDBStore.New, hdec, hload]
  rw [hdb, hnew]
  exact ⟨rfl, rfl, rfl⟩

/-- Concrete fixture: codecs that pass the identifier through and encode
the values `[("foo", "bar")]` to a blob that decodes back to them. -/
def rtCodecs : CodecOps :=
  ⟨fun _ i => .ok i, fun _ t => .ok t, fun _ _ => .ok "blob",
   fun _ _ => .ok [("foo", GoValue.str "bar")]⟩

/-- Concrete fixture: a store with the roundtrip codecs and an empty
collection. -/
def rtStore : MongoDBStore := ⟨rtCodecs, [], baseOptions, [], none, none, none⟩

/-- Concrete fixture: a fresh session holding values `[("foo", "bar")]`. -/
def rtSession : GoSession := ⟨"", "sess", [("foo", GoValue.str "bar")], baseOptions, true⟩

/-- C1 witness: concretely saving `[("foo", "bar")]` and loading via the
token that `Save` set reproduces exactly `[("foo", "bar")]` with
is-new = false and no error. -/
theorem save_load_roundTrip_witness :
    (0 : Int) ≤ rtSession.options.maxAge ∧
    (rtStore.Save rtSession sampleOid 0).err = none ∧
    (MongoDBStore.New { rtStore with db := (rtStore.Save rtSession sampleOid 0).db }
        (some (oidHex sampleOid)) "sess").1.values = [("foo", GoValue.str "bar")] ∧
    (MongoDBStore.New { rtStore with db := (rtStore.Save rtSession sampleOid 0).db }
        (some (oidHex sampleOid)) "sess").1.isNew = false ∧
    (MongoDBStore.New { rtStore with db := (rtStore.Save rtSession sampleOid 0).db }
        (some (oidHex sampleOid)) "sess").2 = none := by
  have h := save_load_roundTrip rtStore rtSession sampleOid 0 (oidHex sampleOid)
    (by decide) rfl
    (fun n i t hh => by injection hh with h2; rw [← h2]; rfl)
    (fun d _ => rfl) rfl rfl
  exact ⟨by decide, rfl, h.1, h.2.1, h.2.2⟩
